import Mathlib

/-!
Verification of the mailrelay core: recipient extraction
(internal/email/email.go), the ordered multi-server relay engine
(sendWithDialer / attemptRelayWithDialer), and the configuration-time
server shuffle (internal/config/config.go, randomizeSMTPServers).

Strings from the Go side are embedded as `List Char`; `str` injects a
Lean string literal.
-/

namespace Mailrelay

/-- Character list of a string literal. -/
def str (s : String) : List Char := s.data

/-! ### Message framing

Modelled from the spec: the external header-block framing performed by
`net/mail.ReadMessage` (Go standard library, not part of this
repository): the message is split into lines on a newline, header lines
run up to the first blank line terminated by a newline (reaching the end
of input before such a blank line is a parse failure), a continuation
line starting with a space or tab is folded onto the previous header
line joined by a single space, and every folded header line is split at
its first colon into a key (compared case-insensitively, here stored
lowercased) and a value with leading spaces and tabs removed; a header
line without a colon, or an initial header line starting with
whitespace, is a parse failure. CR handling is omitted. -/

/-- Space or tab, the whitespace recognized by the header parser. -/
def isWS (c : Char) : Bool := c = ' ' || c = '\t'

/-- Does the line start with folding whitespace? -/
def startsWithWS : List Char → Bool
  | [] => false
  | c :: _ => isWS c

/-- Trim spaces and tabs from both ends (continuation-line trimming). -/
def trimWS (l : List Char) : List Char :=
  ((l.dropWhile isWS).reverse.dropWhile isWS).reverse

/-- Header lines strictly before the first blank line; `none` when the
end of input is reached before a newline-terminated blank line. -/
def takeUntilBlank : List (List Char) → Option (List (List Char))
  | [] => none
  | [_] => none
  | l :: rest =>
    if l = [] then some [] else (takeUntilBlank rest).map (l :: ·)

/-- Fold continuation lines onto the current logical header line. -/
def foldLinesAux (cur : List Char) : List (List Char) → List (List Char)
  | [] => [cur]
  | l :: rest =>
    if startsWithWS l then foldLinesAux (cur ++ ' ' :: trimWS l) rest
    else cur :: foldLinesAux l rest

/-- Split a header line at its first colon. -/
def splitAtColon : List Char → Option (List Char × List Char)
  | [] => none
  | c :: rest =>
    if c = ':' then some ([], rest)
    else (splitAtColon rest).map (fun p => (c :: p.1, p.2))

/-- Parse one folded header line into a lowercased key and a value with
leading whitespace removed. -/
def parseHeaderLine (l : List Char) : Option (List Char × List Char) :=
  (splitAtColon l).map (fun p => (p.1.map Char.toLower, p.2.dropWhile isWS))

/-- Parse every folded header line. -/
def parseHeaderBlock : List (List Char) → Option (List (List Char × List Char))
  | [] => some []
  | l :: rest => do
    let kv ← parseHeaderLine l
    let hs ← parseHeaderBlock rest
    pure (kv :: hs)

/-- `net/mail.ReadMessage` at the header level: the parsed header list,
or `none` when the header block cannot be delimited from the body. -/
def readMessage (raw : List Char) : Option (List (List Char × List Char)) :=
  match takeUntilBlank (raw.splitOn '\n') with
  | none => none
  | some [] => some []
  | some (first :: rest) =>
    if startsWithWS first then none
    else parseHeaderBlock (foldLinesAux first rest)

/-- `Header.Get`: value of the first header with the given (lowercased)
key, or the empty string. -/
def headerGet (hs : List (List Char × List Char)) (name : List Char) : List Char :=
  match hs with
  | [] => []
  | (k, v) :: rest => if k = name then v else headerGet rest name

/-! ### Recipient extraction (internal/email/email.go) -/

/-- `strings.Trim(part, " ")`: strip leading and trailing spaces. -/
def trimSpaces (l : List Char) : List Char :=
  ((l.dropWhile (· = ' ')).reverse.dropWhile (· = ' ')).reverse

/-- Index of the last occurrence of `c`, if any. -/
def lastIndexOf (c : Char) : List Char → Option Nat
  | [] => none
  | a :: rest =>
    match lastIndexOf c rest with
    | some i => some (i + 1)
    | none => if a = c then some 0 else none

/-- The submatch semantics of Go `regexp.FindStringSubmatch` for the
pattern matching anything, then an angle-bracketed group: with `m` the
last index of a closing angle bracket and `k` the last index of an
opening angle bracket before `m`, the group is the slice strictly
between `k` and `m`; if the pattern does not match, the recipient is the
trimmed part verbatim. -/
def extractRecipient (t : List Char) : List Char :=
  match lastIndexOf '>' t with
  | none => t
  | some m =>
    match lastIndexOf '<' (t.take m) with
    | none => t
    | some k => (t.take m).drop (k + 1)

/-- One header of the `parseRecipients` loop in
internal/email/email.go: skip an empty header value, split on commas,
trim each part, skip parts empty after trimming, and append the
extracted recipient of every remaining part. -/
def appendHeaderRecipients (recips : List (List Char)) (headerValue : List Char) :
    List (List Char) :=
  if headerValue = [] then recips
  else
    (headerValue.splitOn ',').foldl
      (fun acc part =>
        if trimSpaces part = [] then acc
        else acc ++ [extractRecipient (trimSpaces part)])
      recips

/-- `parseRecipients` of internal/email/email.go on an already parsed
message: fold the To, Cc, Bcc headers in order, appending to the
configuration's recipient list. -/
def parseRecipients (hdrs : List (List Char × List Char)) (recips : List (List Char)) :
    List (List Char) :=
  [str "to", str "cc", str "bcc"].foldl
    (fun acc h => appendHeaderRecipients acc (headerGet hdrs h)) recips

/-- One header of the `parseRecipients` loop in the earlier
src/unnamed/part_000 revision: no empty-header skip and no
empty-after-trimming skip; every comma part contributes an entry. -/
def appendHeaderRecipientsOld (recips : List (List Char)) (headerValue : List Char) :
    List (List Char) :=
  (headerValue.splitOn ',').foldl
    (fun acc part => acc ++ [extractRecipient (trimSpaces part)])
    recips

/-- `parseRecipients` of src/unnamed/part_000 on a parsed message. -/
def parseRecipientsOld (hdrs : List (List Char × List Char)) (recips : List (List Char)) :
    List (List Char) :=
  [str "to", str "cc", str "bcc"].foldl
    (fun acc h => appendHeaderRecipientsOld acc (headerGet hdrs h)) recips

/-- Program configuration (internal/config/config.go), without the
help flag, which never reaches the send path. -/
structure Config where
  BeVerbose : Bool
  FromAddr : List Char
  SmtpAddrs : List (List Char)
  Recipients : List (List Char)
deriving DecidableEq

/-- An email message bound to its configuration. -/
structure Email where
  Body : List Char
  Config : Config
deriving DecidableEq

/-- `email.New`: build the `Email`, parse recipients into the
configuration, and fail without touching the configuration when the
message cannot be parsed. The second component is the configuration
state after the call. -/
def EmailNew (cfg : Config) (body : List Char) : Option Email × Config :=
  match readMessage body with
  | none => (none, cfg)
  | some hdrs =>
    let cfg2 := { cfg with Recipients := parseRecipients hdrs cfg.Recipients }
    (some ⟨body, cfg2⟩, cfg2)

/-! ### Relay engine (internal/email/email.go, sendWithDialer and
attemptRelayWithDialer)

A server's observable behaviour is the outcome of each SMTP method on
it; an execution is embedded as the list of SMTP method calls issued
(each tagged with the server it goes to) together with the error
result. -/

/-- One SMTP method call, as observed through the `SMTPClient`
interface (plus the dial that produces the client and the data-writer
calls). -/
inductive Ev where
  | dial
  | startTLS
  | mailFrom (sender : List Char)
  | rcpt (addr : List Char)
  | data
  | write
  | closeWriter
  | quit
  | close
deriving DecidableEq

/-- Outcome of each SMTP method against one server: `none` is success,
`some e` the error returned. -/
structure ServerBehavior where
  dial : Option String
  startTLS : Option String
  mail : Option String
  rcpt : List Char → Option String
  data : Option String
  write : Option String
  closeWriter : Option String
  quit : Option String

/-- The recipient-declaration loop: `Rcpt` each address in order,
returning on the first rejection. -/
def rcptLoop (beh : ServerBehavior) (s : String) :
    List (List Char) → List (String × Ev) × Option String
  | [] => ([], none)
  | a :: rest =>
    match beh.rcpt a with
    | some e => ([(s, .rcpt a)], some e)
    | none =>
      let r := rcptLoop beh s rest
      ((s, .rcpt a) :: r.1, r.2)

/-- The transaction body after a successful dial: StartTLS, Mail, the
recipient loop, Data, the body write, the writer close, Quit, each
returning on its first error (on a failed write the data writer is
still closed, and its close result is discarded). -/
def afterDial (beh : ServerBehavior) (s : String) (sender : List Char)
    (rcpts : List (List Char)) : List (String × Ev) × Option String :=
  match beh.startTLS with
  | some e => ([(s, .startTLS)], some e)
  | none =>
    match beh.mail with
    | some e => ([(s, .startTLS), (s, .mailFrom sender)], some e)
    | none =>
      let r := rcptLoop beh s rcpts
      match r.2 with
      | some e => ((s, .startTLS) :: (s, .mailFrom sender) :: r.1, some e)
      | none =>
        match beh.data with
        | some e => ((s, .startTLS) :: (s, .mailFrom sender) :: r.1 ++ [(s, .data)], some e)
        | none =>
          match beh.write with
          | some e =>
            ((s, .startTLS) :: (s, .mailFrom sender) :: r.1
              ++ [(s, .data), (s, .write), (s, .closeWriter)], some e)
          | none =>
            match beh.closeWriter with
            | some e =>
              ((s, .startTLS) :: (s, .mailFrom sender) :: r.1
                ++ [(s, .data), (s, .write), (s, .closeWriter)], some e)
            | none =>
              match beh.quit with
              | some e =>
                ((s, .startTLS) :: (s, .mailFrom sender) :: r.1
                  ++ [(s, .data), (s, .write), (s, .closeWriter), (s, .quit)], some e)
              | none =>
                ((s, .startTLS) :: (s, .mailFrom sender) :: r.1
                  ++ [(s, .data), (s, .write), (s, .closeWriter), (s, .quit)], none)

/-- `attemptRelayWithDialer`: dial the server (a failed dial ends the
transaction with no connection to release), run the transaction body,
and close the connection on every exit path after a successful dial
(the deferred `Close`). -/
def attemptRelayWithDialer (beh : ServerBehavior) (s : String) (sender : List Char)
    (rcpts : List (List Char)) : List (String × Ev) × Option String :=
  match beh.dial with
  | some e => ([(s, .dial)], some e)
  | none =>
    let r := afterDial beh s sender rcpts
    ((s, .dial) :: r.1 ++ [(s, .close)], r.2)

/-- Terminal result of one send over the whole server list. -/
inductive DeliveryOutcome where
  | delivered (via : String)
  | failed (lastErr : Option String)
deriving DecidableEq

/-- The loop of `sendWithDialer` with the threaded `err` variable:
try each server in order, stopping at the first success; after an
exhausted list, fail wrapping the last recorded error (`none` when no
server was ever attempted). -/
def sendLoop (behf : String → ServerBehavior) (sender : List Char)
    (rcpts : List (List Char)) :
    List String → Option String → List (String × Ev) × DeliveryOutcome
  | [], last => ([], .failed last)
  | s :: rest, _ =>
    let a := attemptRelayWithDialer (behf s) s sender rcpts
    match a.2 with
    | none => (a.1, .delivered s)
    | some e =>
      let b := sendLoop behf sender rcpts rest (some e)
      (a.1 ++ b.1, b.2)

/-- `sendWithDialer`: the server loop started with no recorded error. -/
def sendWithDialer (behf : String → ServerBehavior) (sender : List Char)
    (rcpts : List (List Char)) (servers : List String) :
    List (String × Ev) × DeliveryOutcome :=
  sendLoop behf sender rcpts servers none

/-! ### Configuration-time shuffle (internal/config/config.go) -/

/-- The parallel assignment `l[i], l[j] = l[j], l[i]` on a list; the Go
code only ever uses it with indices in bounds. -/
def listSwap (l : List α) (i j : Nat) : List α :=
  if hi : i < l.length then
    if hj : j < l.length then
      (l.set i (l.get ⟨j, hj⟩)).set j (l.get ⟨i, hi⟩)
    else l
  else l

/-- `randomizeSMTPServers`: for each position `k` of the list, draw two
values from the random stream `rnd` (call `2*k` and `2*k+1` of
`r.Int()`, which is non-negative), reduce them modulo `k+1`, and swap
the two indexed entries. -/
def randomizeSMTPServers (rnd : Nat → Nat) (addrs : List String) : List String :=
  (List.range addrs.length).foldl
    (fun acc k => listSwap acc (rnd (2 * k) % (k + 1)) (rnd (2 * k + 1) % (k + 1)))
    addrs

/-- The index pairs used by the swaps of `randomizeSMTPServers` on a
list of length `n`. -/
def swapIndices (rnd : Nat → Nat) (n : Nat) : List (Nat × Nat) :=
  (List.range n).map (fun k => (rnd (2 * k) % (k + 1), rnd (2 * k + 1) % (k + 1)))

/-- `config.New` on the send-relevant fields: validate that the server
list is non-empty and the sender set, then apply the shuffle exactly
once, yielding the server order fixed for the lifetime of the send. -/
def configNew (rnd : Nat → Nat) (fromAddr : String) (smtpAddrs : List String) :
    Option (List String) :=
  if smtpAddrs.isEmpty then none
  else if fromAddr = "" then none
  else some (randomizeSMTPServers rnd smtpAddrs)

/-! ### Helper lemmas: the send loop -/

lemma sendLoop_first_success (behf : String → ServerBehavior) (sender : List Char)
    (rcpts : List (List Char)) (s : String) (post : List String) :
    ∀ (pre : List String) (last : Option String),
      (∀ p ∈ pre, (attemptRelayWithDialer (behf p) p sender rcpts).2 ≠ none) →
      (attemptRelayWithDialer (behf s) s sender rcpts).2 = none →
      (sendLoop behf sender rcpts (pre ++ s :: post) last).2 = .delivered s
  | [], last, _, hs => by
    simp [sendLoop, hs]
  | p :: pre, last, hpre, hs => by
    have hp := hpre p (List.mem_cons_self p pre)
    obtain ⟨e, he⟩ := Option.ne_none_iff_exists'.mp hp
    simp only [List.cons_append, sendLoop, he]
    exact sendLoop_first_success behf sender rcpts s post pre (some e)
      (fun q hq => hpre q (List.mem_cons_of_mem p hq)) hs

lemma sendLoop_all_fail (behf : String → ServerBehavior) (sender : List Char)
    (rcpts : List (List Char)) :
    ∀ (servers : List String) (h : servers ≠ []) (last : Option String),
      (∀ p ∈ servers, (attemptRelayWithDialer (behf p) p sender rcpts).2 ≠ none) →
      (sendLoop behf sender rcpts servers last).2 =
        .failed (attemptRelayWithDialer (behf (servers.getLast h)) (servers.getLast h)
          sender rcpts).2
  | [], h, _, _ => absurd rfl h
  | [a], _, last, hall => by
    have ha := hall a (List.mem_singleton.mpr rfl)
    obtain ⟨e, he⟩ := Option.ne_none_iff_exists'.mp ha
    simp [sendLoop, he, List.getLast_singleton]
  | a :: b :: rest, _, last, hall => by
    have ha := hall a (List.mem_cons_self a (b :: rest))
    obtain ⟨e, he⟩ := Option.ne_none_iff_exists'.mp ha
    simp only [sendLoop, he]
    rw [List.getLast_cons (List.cons_ne_nil b rest)]
    exact sendLoop_all_fail behf sender rcpts (b :: rest) (List.cons_ne_nil b rest)
      (some e) (fun q hq => hall q (List.mem_cons_of_mem a hq))

/-! ### Claims about the relay engine -/

/-- C1: `send` tries the servers strictly in list order and the first
server whose transaction completes without error terminates the
iteration with delivery via exactly that server; in particular over
`[A, B]` with A failing and B succeeding the result is delivered via B
and A's failure does not appear in the result. -/
theorem send_first_success_delivers (behf : String → ServerBehavior)
    (sender : List Char) (rcpts : List (List Char)) :
    (∀ (pre : List String) (s : String) (post : List String),
      (∀ p ∈ pre, (attemptRelayWithDialer (behf p) p sender rcpts).2 ≠ none) →
      (attemptRelayWithDialer (behf s) s sender rcpts).2 = none →
      (sendWithDialer behf sender rcpts (pre ++ s :: post)).2 = .delivered s)
    ∧ (∀ A B : String,
      (attemptRelayWithDialer (behf A) A sender rcpts).2 ≠ none →
      (attemptRelayWithDialer (behf B) B sender rcpts).2 = none →
      (sendWithDialer behf sender rcpts [A, B]).2 = .delivered B
        ∧ ∀ e : Option String, (sendWithDialer behf sender rcpts [A, B]).2 ≠ .failed e) := by
  constructor
  · intro pre s post hpre hs
    exact sendLoop_first_success behf sender rcpts s post pre none hpre hs
  · intro A B hA hB
    have h := sendLoop_first_success behf sender rcpts B [] [A] none
      (fun p hp => by rwa [List.mem_singleton.mp hp]) hB
    simp only [List.singleton_append] at h
    exact ⟨h, fun e => by rw [sendWithDialer, h]; exact fun hcon => DeliveryOutcome.noConfusion hcon⟩

/-- C2: when every server's transaction fails, `send` returns a failure
wrapping exactly the last server's error; over `[A, B]` with both
failing, the result wraps B's error and (when the two errors differ)
not A's. -/
theorem send_all_fail_wraps_last (behf : String → ServerBehavior)
    (sender : List Char) (rcpts : List (List Char)) :
    (∀ (servers : List String) (h : servers ≠ []),
      (∀ p ∈ servers, (attemptRelayWithDialer (behf p) p sender rcpts).2 ≠ none) →
      (sendWithDialer behf sender rcpts servers).2 =
        .failed (attemptRelayWithDialer (behf (servers.getLast h)) (servers.getLast h)
          sender rcpts).2)
    ∧ (∀ (A B : String) (eA eB : String),
      (attemptRelayWithDialer (behf A) A sender rcpts).2 = some eA →
      (attemptRelayWithDialer (behf B) B sender rcpts).2 = some eB →
      (sendWithDialer behf sender rcpts [A, B]).2 = .failed (some eB)
        ∧ (eA ≠ eB → (sendWithDialer behf sender rcpts [A, B]).2 ≠ .failed (some eA))) := by
  constructor
  · intro servers h hall
    exact sendLoop_all_fail behf sender rcpts servers h none hall
  · intro A B eA eB hA hB
    have h := sendLoop_all_fail behf sender rcpts [A, B] (by simp) none
      (by intro p hp; rcases List.mem_pair.mp hp with h | h <;> subst h <;> simp [hA, hB])
    rw [List.getLast_cons (List.cons_ne_nil B []), List.getLast_singleton] at h
    rw [hB] at h
    refine ⟨h, fun hne => ?_⟩
    rw [sendWithDialer, h]
    intro hcon
    exact hne (Option.some_injective _ ((DeliveryOutcome.failed.injEq _ _).mp hcon)).symm

/-- C5: over the empty server list, `send` fails immediately, with no
SMTP method call issued and no underlying server error recorded. -/
theorem send_empty_list (behf : String → ServerBehavior) (sender : List Char)
    (rcpts : List (List Char)) :
    sendWithDialer behf sender rcpts [] = ([], .failed none) := rfl

/-! ### Helper lemmas: the per-server transaction trace -/

lemma rcptLoop_all_ok (beh : ServerBehavior) (s : String) :
    ∀ rcpts : List (List Char), (∀ a ∈ rcpts, beh.rcpt a = none) →
      rcptLoop beh s rcpts = (rcpts.map (fun a => (s, Ev.rcpt a)), none)
  | [], _ => rfl
  | a :: rest, hall => by
    have ha := hall a (List.mem_cons_self a rest)
    simp only [rcptLoop, ha, List.map_cons]
    rw [rcptLoop_all_ok beh s rest (fun q hq => hall q (List.mem_cons_of_mem a hq))]

lemma rcptLoop_first_reject (beh : ServerBehavior) (s : String) (a : List Char)
    (rest : List (List Char)) (e : String) (ha : beh.rcpt a = some e) :
    ∀ pre : List (List Char), (∀ p ∈ pre, beh.rcpt p = none) →
      rcptLoop beh s (pre ++ a :: rest) =
        ((pre ++ [a]).map (fun p => (s, Ev.rcpt p)), some e)
  | [], _ => by simp only [List.nil_append, rcptLoop, ha, List.map_cons, List.map_nil]
  | p :: pre, hpre => by
    have hp := hpre p (List.mem_cons_self p pre)
    simp only [List.cons_append, rcptLoop, hp, List.map_cons, List.append_eq]
    rw [rcptLoop_first_reject beh s a rest e ha pre
      (fun q hq => hpre q (List.mem_cons_of_mem p hq))]

lemma rcptLoop_shape (beh : ServerBehavior) (s : String) :
    ∀ rcpts : List (List Char),
      ∃ l : List (List Char), (rcptLoop beh s rcpts).1 = l.map (fun a => (s, Ev.rcpt a))
  | [] => ⟨[], rfl⟩
  | a :: rest => by
    cases ha : beh.rcpt a with
    | some e => exact ⟨[a], by simp [rcptLoop, ha]⟩
    | none =>
      obtain ⟨l, hl⟩ := rcptLoop_shape beh s rest
      exact ⟨a :: l, by simp [rcptLoop, ha, hl]⟩

lemma afterDial_shape (beh : ServerBehavior) (s : String) (sender : List Char)
    (rcpts : List (List Char)) :
    ∃ evs : List Ev, (afterDial beh s sender rcpts).1 = evs.map (fun e => (s, e)) := by
  obtain ⟨l, hl⟩ := rcptLoop_shape beh s rcpts
  cases h1 : beh.startTLS with
  | some e => exact ⟨[.startTLS], by simp [afterDial, h1]⟩
  | none =>
  cases h2 : beh.mail with
  | some e => exact ⟨[.startTLS, .mailFrom sender], by simp [afterDial, h1, h2]⟩
  | none =>
  cases h3 : (rcptLoop beh s rcpts).2 with
  | some e =>
    exact ⟨.startTLS :: .mailFrom sender :: l.map Ev.rcpt, by
      simp [afterDial, h1, h2, h3, hl, Function.comp]⟩
  | none =>
  cases h4 : beh.data with
  | some e =>
    exact ⟨.startTLS :: .mailFrom sender :: l.map Ev.rcpt ++ [.data], by
      simp [afterDial, h1, h2, h3, h4, hl, Function.comp]⟩
  | none =>
  cases h5 : beh.write with
  | some e =>
    exact ⟨.startTLS :: .mailFrom sender :: l.map Ev.rcpt
        ++ [.data, .write, .closeWriter], by
      simp [afterDial, h1, h2, h3, h4, h5, hl, Function.comp]⟩
  | none =>
  cases h6 : beh.closeWriter with
  | some e =>
    exact ⟨.startTLS :: .mailFrom sender :: l.map Ev.rcpt
        ++ [.data, .write, .closeWriter], by
      simp [afterDial, h1, h2, h3, h4, h5, h6, hl, Function.comp]⟩
  | none =>
  cases h7 : beh.quit with
  | some e =>
    exact ⟨.startTLS :: .mailFrom sender :: l.map Ev.rcpt
        ++ [.data, .write, .closeWriter, .quit], by
      simp [afterDial, h1, h2, h3, h4, h5, h6, h7, hl, Function.comp]⟩
  | none =>
    exact ⟨.startTLS :: .mailFrom sender :: l.map Ev.rcpt
        ++ [.data, .write, .closeWriter, .quit], by
      simp [afterDial, h1, h2, h3, h4, h5, h6, h7, hl, Function.comp]⟩

/-- C4: a relay transaction runs Connect, StartTLS, sender, each
recipient in order, body transfer, Quit in strict sequence; the first
recipient rejection aborts the transaction with no later recipient and
no body transfer; any failure short-circuits the remaining steps and
the connection is released (the trailing deferred Close) on every exit
path after a successful dial; all calls of an attempt go to its own
server, and no call reaches the second server before the first server's
transaction, Close included, has concluded. -/
theorem relay_transaction_order :
    (∀ (beh : ServerBehavior) (s : String) (sender : List Char) (rcpts : List (List Char)),
      beh.dial = none → beh.startTLS = none → beh.mail = none →
      (∀ a ∈ rcpts, beh.rcpt a = none) → beh.data = none → beh.write = none →
      beh.closeWriter = none → beh.quit = none →
      attemptRelayWithDialer beh s sender rcpts =
        ((s, .dial) :: (s, .startTLS) :: (s, .mailFrom sender) ::
          rcpts.map (fun a => (s, .rcpt a)) ++
          [(s, .data), (s, .write), (s, .closeWriter), (s, .quit), (s, .close)], none))
    ∧ (∀ (beh : ServerBehavior) (s : String) (sender : List Char)
        (pre : List (List Char)) (a : List Char) (rest : List (List Char)) (e : String),
      beh.dial = none → beh.startTLS = none → beh.mail = none →
      (∀ p ∈ pre, beh.rcpt p = none) → beh.rcpt a = some e →
      attemptRelayWithDialer beh s sender (pre ++ a :: rest) =
        ((s, .dial) :: (s, .startTLS) :: (s, .mailFrom sender) ::
          (pre ++ [a]).map (fun p => (s, .rcpt p)) ++ [(s, .close)], some e))
    ∧ (∀ (beh : ServerBehavior) (s : String) (sender : List Char)
        (rcpts : List (List Char)),
      beh.dial = none →
      ((attemptRelayWithDialer beh s sender rcpts).1).getLast? = some (s, .close))
    ∧ (∀ (beh : ServerBehavior) (s : String) (sender : List Char)
        (rcpts : List (List Char)) (ev : String × Ev),
      ev ∈ (attemptRelayWithDialer beh s sender rcpts).1 → ev.1 = s)
    ∧ (∀ (behf : String → ServerBehavior) (sender : List Char)
        (rcpts : List (List Char)) (A B : String),
      ((attemptRelayWithDialer (behf A) A sender rcpts).2 = none →
        (sendWithDialer behf sender rcpts [A, B]).1 =
          (attemptRelayWithDialer (behf A) A sender rcpts).1)
      ∧ (∀ e : String, (attemptRelayWithDialer (behf A) A sender rcpts).2 = some e →
        (sendWithDialer behf sender rcpts [A, B]).1 =
          (attemptRelayWithDialer (behf A) A sender rcpts).1 ++
            (attemptRelayWithDialer (behf B) B sender rcpts).1)) := by
  refine ⟨?_, ?_, ?_, ?_, ?_⟩
  · intro beh s sender rcpts h1 h2 h3 h4 h5 h6 h7 h8
    rw [attemptRelayWithDialer, h1]
    rw [afterDial, h2, h3, rcptLoop_all_ok beh s rcpts h4]
    simp [h5, h6, h7, h8]
  · intro beh s sender pre a rest e h1 h2 h3 h4 h5
    rw [attemptRelayWithDialer, h1]
    rw [afterDial, h2, h3, rcptLoop_first_reject beh s a rest e h5 pre h4]
  · intro beh s sender rcpts h1
    rw [attemptRelayWithDialer, h1]
    show ((s, Ev.dial) :: ((afterDial beh s sender rcpts).1 ++ [(s, Ev.close)])).getLast? =
      some (s, Ev.close)
    rw [← List.cons_append, List.getLast?_concat]
  · intro beh s sender rcpts ev hev
    cases h1 : beh.dial with
    | some e =>
      rw [attemptRelayWithDialer, h1] at hev
      simp only [List.mem_singleton] at hev
      rw [hev]
    | none =>
      simp only [attemptRelayWithDialer, h1] at hev
      obtain ⟨evs, hevs⟩ := afterDial_shape beh s sender rcpts
      rw [hevs] at hev
      rcases List.mem_cons.mp hev with h | h
      · rw [h]
      · rcases List.mem_append.mp h with h2 | h2
        · obtain ⟨x, _, hx⟩ := List.mem_map.mp h2
          rw [← hx]
        · rw [List.mem_singleton.mp h2]
  · intro behf sender rcpts A B
    constructor
    · intro hA
      show (sendLoop behf sender rcpts [A, B] none).1 = _
      simp [sendLoop, hA]
    · intro e hA
      show (sendLoop behf sender rcpts [A, B] none).1 = _
      cases hB : (attemptRelayWithDialer (behf B) B sender rcpts).2 with
      | some e2 => simp [sendLoop, hA, hB]
      | none => simp [sendLoop, hA, hB]

/-! ### Concrete behaviours for the witnesses -/

/-- A server on which every SMTP method succeeds. -/
def okBeh : ServerBehavior :=
  { dial := none, startTLS := none, mail := none, rcpt := fun _ => none,
    data := none, write := none, closeWriter := none, quit := none }

/-- A server whose dial is refused. -/
def dialFailBeh : ServerBehavior := { okBeh with dial := some "dial refused" }

/-- Server A fails to dial, every other server accepts everything. -/
def behAB : String → ServerBehavior :=
  fun srv => if srv = "A" then dialFailBeh else okBeh

/-- Both servers fail to dial, with distinct errors. -/
def behBothFail : String → ServerBehavior :=
  fun srv =>
    if srv = "A" then { okBeh with dial := some "dial A refused" }
    else { okBeh with dial := some "dial B refused" }

/-- A server rejecting exactly the recipient `r2`. -/
def rcptRejBeh : ServerBehavior :=
  { okBeh with rcpt := fun a => if a = str "r2" then some "rcpt refused" else none }

/-- Witness for C1 at concrete input: A's dial fails, B succeeds, and
the send over `[A, B]` is delivered via B. -/
theorem send_first_success_delivers_witness :
    (sendWithDialer behAB [] [] ["A", "B"]).2 = .delivered "B" :=
  ((send_first_success_delivers behAB [] []).2 "A" "B" (by decide) (by decide)).1

/-- Witness for C2 at concrete input: both dials fail and the send over
`[A, B]` wraps B's error, not A's. -/
theorem send_all_fail_wraps_last_witness :
    (sendWithDialer behBothFail [] [] ["A", "B"]).2 = .failed (some "dial B refused")
      ∧ (sendWithDialer behBothFail [] [] ["A", "B"]).2 ≠ .failed (some "dial A refused") := by
  have h := (send_all_fail_wraps_last behBothFail [] []).2 "A" "B"
    "dial A refused" "dial B refused" (by decide) (by decide)
  exact ⟨h.1, h.2 (by decide)⟩

/-- Witness for C4 at concrete inputs: the full success trace over two
recipients, the aborted trace when the second of three recipients is
rejected, the trailing Close, the per-server tagging, and the
cross-server trace concatenation. -/
theorem relay_transaction_order_witness :
    (attemptRelayWithDialer okBeh "A" (str "f@x") [str "r1", str "r2"] =
      (("A", .dial) :: ("A", .startTLS) :: ("A", .mailFrom (str "f@x")) ::
        [str "r1", str "r2"].map (fun a => ("A", .rcpt a)) ++
        [("A", .data), ("A", .write), ("A", .closeWriter), ("A", .quit), ("A", .close)],
        none))
    ∧ (attemptRelayWithDialer rcptRejBeh "A" (str "f@x")
        ([str "r1"] ++ str "r2" :: [str "r3"]) =
      (("A", .dial) :: ("A", .startTLS) :: ("A", .mailFrom (str "f@x")) ::
        ([str "r1"] ++ [str "r2"]).map (fun p => ("A", .rcpt p)) ++ [("A", .close)],
        some "rcpt refused"))
    ∧ ((attemptRelayWithDialer okBeh "A" (str "f@x") [str "r1"]).1).getLast? =
        some ("A", .close)
    ∧ (("A", Ev.dial) ∈ (attemptRelayWithDialer okBeh "A" (str "f@x") []).1 →
        ("A", Ev.dial).1 = "A")
    ∧ (sendWithDialer behAB (str "f@x") [] ["A", "B"]).1 =
        (attemptRelayWithDialer (behAB "A") "A" (str "f@x") []).1 ++
          (attemptRelayWithDialer (behAB "B") "B" (str "f@x") []).1 := by
  refine ⟨?_, ?_, ?_, ?_, ?_⟩
  · exact relay_transaction_order.1 okBeh "A" (str "f@x") [str "r1", str "r2"]
      rfl rfl rfl (by decide) rfl rfl rfl rfl
  · exact relay_transaction_order.2.1 rcptRejBeh "A" (str "f@x")
      [str "r1"] (str "r2") [str "r3"] "rcpt refused" rfl rfl rfl (by decide) (by decide)
  · exact relay_transaction_order.2.2.1 okBeh "A" (str "f@x") [str "r1"] rfl
  · exact relay_transaction_order.2.2.2.1 okBeh "A" (str "f@x") [] ("A", Ev.dial)
  · exact (relay_transaction_order.2.2.2.2 behAB (str "f@x") [] "A" "B").2
      "dial refused" (by decide)

/-! ### Helper lemmas: swapping list entries is a permutation -/

lemma get_cons_set_perm {α : Type} :
    ∀ (t : List α) (m : Nat) (hm : m < t.length) (a : α),
      (t.get ⟨m, hm⟩ :: t.set m a).Perm (a :: t)
  | b :: t, 0, _, a => by simpa using List.Perm.swap a b t
  | b :: t, m + 1, hm, a => by
    have ih := get_cons_set_perm t m (by simpa using hm) a
    simp only [List.get_cons_succ, List.set_cons_succ]
    exact (List.Perm.swap b _ _).trans ((ih.cons b).trans (List.Perm.swap a b t))

lemma set_set_get_perm {α : Type} :
    ∀ (l : List α) (i j : Nat) (hi : i < l.length) (hj : j < l.length),
      ((l.set i (l.get ⟨j, hj⟩)).set j (l.get ⟨i, hi⟩)).Perm l
  | a :: t, 0, 0, _, _ => by simp
  | a :: t, 0, m + 1, _, hj => by
    simpa using get_cons_set_perm t m (by simpa using hj) a
  | a :: t, n + 1, 0, hi, _ => by
    simpa using get_cons_set_perm t n (by simpa using hi) a
  | a :: t, n + 1, m + 1, hi, hj => by
    simpa using (set_set_get_perm t n m (by simpa using hi) (by simpa using hj)).cons a

lemma listSwap_perm {α : Type} (l : List α) (i j : Nat) : (listSwap l i j).Perm l := by
  unfold listSwap
  split
  case isTrue hi =>
    split
    case isTrue hj => exact set_set_get_perm l i j hi hj
    case isFalse => exact List.Perm.refl l
  case isFalse => exact List.Perm.refl l

lemma foldl_swap_perm {α : Type} (g : List α → Nat → List α)
    (h : ∀ acc k, (g acc k).Perm acc) :
    ∀ (ks : List Nat) (init : List α), (ks.foldl g init).Perm init
  | [], _ => List.Perm.refl _
  | k :: ks, init => (foldl_swap_perm g h ks (g init k)).trans (h init k)

/-! ### Claim about the shuffle -/

/-- C8: `randomizeSMTPServers` permutes the server list — the result
has the same length and the same element counts (nothing added, dropped
or duplicated) — every index used in a swap is in bounds for every list
length, the whole pass is exactly the fold of those indexed swaps, and
the configuration constructor applies it exactly once, fixing the order
it returns. -/
theorem randomizeSMTPServers_permutes :
    (∀ (rnd : Nat → Nat) (addrs : List String),
      (randomizeSMTPServers rnd addrs).Perm addrs
      ∧ (randomizeSMTPServers rnd addrs).length = addrs.length
      ∧ ∀ a : String, (randomizeSMTPServers rnd addrs).count a = addrs.count a)
    ∧ (∀ (rnd : Nat → Nat) (n : Nat) (p : Nat × Nat),
        p ∈ swapIndices rnd n → p.1 < n ∧ p.2 < n)
    ∧ (∀ (rnd : Nat → Nat) (addrs : List String),
        randomizeSMTPServers rnd addrs =
          (swapIndices rnd addrs.length).foldl (fun acc p => listSwap acc p.1 p.2) addrs)
    ∧ (∀ (rnd : Nat → Nat) (fromAddr : String) (smtpAddrs l : List String),
        configNew rnd fromAddr smtpAddrs = some l → l.Perm smtpAddrs) := by
  have hperm : ∀ (rnd : Nat → Nat) (addrs : List String),
      (randomizeSMTPServers rnd addrs).Perm addrs := by
    intro rnd addrs
    exact foldl_swap_perm _ (fun acc k => listSwap_perm acc _ _) _ addrs
  refine ⟨?_, ?_, ?_, ?_⟩
  · intro rnd addrs
    exact ⟨hperm rnd addrs, (hperm rnd addrs).length_eq,
      fun a => (hperm rnd addrs).count_eq a⟩
  · intro rnd n p hp
    obtain ⟨k, hk, hkp⟩ := List.mem_map.mp hp
    have hkn : k < n := List.mem_range.mp hk
    rw [← hkp]
    exact ⟨lt_of_lt_of_le (Nat.mod_lt _ (Nat.succ_pos k)) hkn,
      lt_of_lt_of_le (Nat.mod_lt _ (Nat.succ_pos k)) hkn⟩
  · intro rnd addrs
    rw [randomizeSMTPServers, swapIndices, List.foldl_map]
  · intro rnd fromAddr smtpAddrs l h
    unfold configNew at h
    split at h
    · exact Option.noConfusion h
    · split at h
      · exact Option.noConfusion h
      · rw [← Option.some_inj.mp h]
        exact hperm rnd smtpAddrs

/-- Witness for C8 at concrete input: with the identity random stream
on a three-entry list, the swap indices are in bounds and the
configuration constructor returns a permutation of the input. -/
theorem randomizeSMTPServers_permutes_witness :
    ((1, 2) : Nat × Nat).1 < 3 ∧ ((1, 2) : Nat × Nat).2 < 3
      ∧ (["b", "c", "a"] : List String).Perm ["a", "b", "c"] := by
  refine ⟨(randomizeSMTPServers_permutes.2.1 (fun i => i) 3 (1, 2) (by decide)).1,
    (randomizeSMTPServers_permutes.2.1 (fun i => i) 3 (1, 2) (by decide)).2,
    randomizeSMTPServers_permutes.2.2.2 (fun i => i) "f@x" ["a", "b", "c"]
      ["b", "c", "a"] (by decide)⟩

/-! ### Helper lemmas: canonical form of the extraction loops -/

/-- Spec-shaped form of one header's contribution: split on commas,
trim, drop empty parts, extract each remaining part. -/
def headerAddresses (v : List Char) : List (List Char) :=
  (((v.splitOn ',').map trimSpaces).filter (fun t => t ≠ [])).map extractRecipient

/-- Spec-shaped form of one header's contribution in the part_000
revision: no empty parts are dropped. -/
def headerAddressesOld (v : List Char) : List (List Char) :=
  ((v.splitOn ',').map trimSpaces).map extractRecipient

lemma foldl_extract_filter :
    ∀ (parts : List (List Char)) (r : List (List Char)),
      parts.foldl
        (fun acc part =>
          if trimSpaces part = [] then acc else acc ++ [extractRecipient (trimSpaces part)]) r
      = r ++ ((parts.map trimSpaces).filter (fun t => t ≠ [])).map extractRecipient
  | [], r => by simp
  | p :: parts, r => by
    by_cases hp : trimSpaces p = []
    · simp only [List.foldl_cons, if_pos hp, List.map_cons, List.filter_cons]
      rw [foldl_extract_filter parts r]
      simp [hp]
    · simp only [List.foldl_cons, if_neg hp, List.map_cons, List.filter_cons]
      rw [foldl_extract_filter parts (r ++ [extractRecipient (trimSpaces p)])]
      simp [hp, List.append_assoc]

lemma foldl_extract_all :
    ∀ (parts : List (List Char)) (r : List (List Char)),
      parts.foldl (fun acc part => acc ++ [extractRecipient (trimSpaces part)]) r
      = r ++ ((parts.map trimSpaces).map extractRecipient)
  | [], r => by simp
  | p :: parts, r => by
    simp only [List.foldl_cons, List.map_cons]
    rw [foldl_extract_all parts (r ++ [extractRecipient (trimSpaces p)])]
    simp [List.append_assoc]

lemma appendHeaderRecipients_eq (r : List (List Char)) (v : List Char) :
    appendHeaderRecipients r v = r ++ headerAddresses v := by
  unfold appendHeaderRecipients headerAddresses
  by_cases hv : v = []
  · rw [if_pos hv, hv]
    exact (List.append_nil r).symm
  · rw [if_neg hv, foldl_extract_filter]

lemma appendHeaderRecipientsOld_eq (r : List (List Char)) (v : List Char) :
    appendHeaderRecipientsOld r v = r ++ headerAddressesOld v := by
  unfold appendHeaderRecipientsOld headerAddressesOld
  rw [foldl_extract_all]

lemma parseRecipients_eq (hdrs : List (List Char × List Char)) (r : List (List Char)) :
    parseRecipients hdrs r =
      r ++ (headerAddresses (headerGet hdrs (str "to"))
        ++ headerAddresses (headerGet hdrs (str "cc"))
        ++ headerAddresses (headerGet hdrs (str "bcc"))) := by
  show appendHeaderRecipients (appendHeaderRecipients (appendHeaderRecipients r
    (headerGet hdrs (str "to"))) (headerGet hdrs (str "cc"))) (headerGet hdrs (str "bcc")) = _
  rw [appendHeaderRecipients_eq, appendHeaderRecipients_eq, appendHeaderRecipients_eq]
  simp [List.append_assoc]

lemma parseRecipientsOld_eq (hdrs : List (List Char × List Char)) (r : List (List Char)) :
    parseRecipientsOld hdrs r =
      r ++ (headerAddressesOld (headerGet hdrs (str "to"))
        ++ headerAddressesOld (headerGet hdrs (str "cc"))
        ++ headerAddressesOld (headerGet hdrs (str "bcc"))) := by
  show appendHeaderRecipientsOld (appendHeaderRecipientsOld (appendHeaderRecipientsOld r
    (headerGet hdrs (str "to"))) (headerGet hdrs (str "cc"))) (headerGet hdrs (str "bcc")) = _
  rw [appendHeaderRecipientsOld_eq, appendHeaderRecipientsOld_eq, appendHeaderRecipientsOld_eq]
  simp [List.append_assoc]

/-! ### Helper lemmas: the angle-bracket extraction -/

lemma lastIndexOf_concat (c : Char) :
    ∀ l : List Char, lastIndexOf c (l ++ [c]) = some l.length
  | [] => by simp [lastIndexOf]
  | a :: l => by
    simp only [List.cons_append, lastIndexOf, List.append_eq, lastIndexOf_concat c l,
      List.length_cons]

lemma lastIndexOf_eq_none (c : Char) :
    ∀ l : List Char, c ∉ l → lastIndexOf c l = none
  | [], _ => rfl
  | a :: l, h => by
    have hne : a ≠ c := fun hac => h (hac ▸ List.mem_cons_self a l)
    simp only [lastIndexOf, lastIndexOf_eq_none c l (fun hc => h (List.mem_cons_of_mem a hc)),
      if_neg hne]

lemma lastIndexOf_append_cons (c : Char) (l2 : List Char) (h : lastIndexOf c l2 = none) :
    ∀ l1 : List Char, lastIndexOf c (l1 ++ c :: l2) = some l1.length
  | [] => by simp [lastIndexOf, h]
  | a :: l1 => by
    simp only [List.cons_append, lastIndexOf, List.append_eq,
      lastIndexOf_append_cons c l2 h l1, List.length_cons]

lemma extractRecipient_angle (name addr : List Char) (h : '<' ∉ addr) :
    extractRecipient (name ++ '<' :: addr ++ ['>']) = addr := by
  have h1 : name ++ '<' :: addr ++ ['>'] = (name ++ '<' :: addr) ++ ['>'] := by
    rw [List.append_assoc, List.cons_append]
  simp only [extractRecipient, h1, lastIndexOf_concat, List.take_left,
    lastIndexOf_append_cons '<' addr (lastIndexOf_eq_none '<' addr h) name]
  have h2 : name ++ '<' :: addr = (name ++ ['<']) ++ addr := by simp
  have h3 : name.length + 1 = (name ++ ['<']).length := by simp
  rw [h2, h3, List.drop_left]

lemma extractRecipient_bare (t : List Char) (h : '<' ∉ t) : extractRecipient t = t := by
  cases hm : lastIndexOf '>' t with
  | none => simp only [extractRecipient, hm]
  | some m =>
    simp only [extractRecipient, hm,
      lastIndexOf_eq_none '<' (t.take m) (fun hc => h (List.take_subset m t hc))]

/-! ### Claims about recipient extraction -/

/-- The example message of the spec and the tests. -/
def exampleBody : List Char :=
  str "To: Foo<foo@x.tld>, Bar <bar@x.tld>\nCc: Baz<baz@x.tld>\nBcc: Waldo <waldo@x.tld>, xyzzy@x.tld\n\nbody"

/-- C3: the extractor appends, in To-Cc-Bcc order and left-to-right
within each header, exactly one entry per non-empty comma-separated
part (duplicates kept); an angle-bracket part yields the bracket
contents and a bare part its trimmed text unchanged; and the spec's
example headers yield exactly the five expected addresses. -/
theorem parseRecipients_extracts :
    (∀ (hdrs : List (List Char × List Char)) (r : List (List Char)),
      parseRecipients hdrs r =
        r ++ (headerAddresses (headerGet hdrs (str "to"))
          ++ headerAddresses (headerGet hdrs (str "cc"))
          ++ headerAddresses (headerGet hdrs (str "bcc"))))
    ∧ (∀ (hdrs : List (List Char × List Char)) (r : List (List Char)),
      (parseRecipients hdrs r).length = r.length
        + ((((headerGet hdrs (str "to")).splitOn ',').map trimSpaces).filter
            (fun t => t ≠ [])).length
        + ((((headerGet hdrs (str "cc")).splitOn ',').map trimSpaces).filter
            (fun t => t ≠ [])).length
        + ((((headerGet hdrs (str "bcc")).splitOn ',').map trimSpaces).filter
            (fun t => t ≠ [])).length)
    ∧ (∀ name addr : List Char, '<' ∉ addr →
        extractRecipient (name ++ '<' :: addr ++ ['>']) = addr)
    ∧ (∀ t : List Char, '<' ∉ t → extractRecipient t = t)
    ∧ (EmailNew ⟨false, str "sender@example.com", [], []⟩ exampleBody).2.Recipients
        = [str "foo@x.tld", str "bar@x.tld", str "baz@x.tld", str "waldo@x.tld",
           str "xyzzy@x.tld"] := by
  refine ⟨parseRecipients_eq, ?_, extractRecipient_angle, extractRecipient_bare, by decide⟩
  intro hdrs r
  rw [parseRecipients_eq]
  simp [headerAddresses, Nat.add_assoc]

/-- Witness for C3 at concrete input: the display-name form yields the
angle-bracket contents and the bare form is returned unchanged. -/
theorem parseRecipients_extracts_witness :
    extractRecipient (str "Foo" ++ '<' :: str "foo@x.tld" ++ ['>']) = str "foo@x.tld"
    ∧ extractRecipient (str "bare@x.tld") = str "bare@x.tld" :=
  ⟨parseRecipients_extracts.2.2.1 (str "Foo") (str "foo@x.tld") (by decide),
   parseRecipients_extracts.2.2.2.1 (str "bare@x.tld") (by decide)⟩

/-- C6: when the header block cannot be delimited from the body,
`email.New` fails and the configuration's recipient list is exactly
what it was before the call. -/
theorem emailNew_parse_failure (cfg : Config) (body : List Char)
    (h : readMessage body = none) :
    (EmailNew cfg body).1 = none ∧ (EmailNew cfg body).2 = cfg := by
  simp only [EmailNew, h]
  exact ⟨trivial, trivial⟩

/-- Witness for C6 at concrete input: a single line with no colon and
no blank separator fails and leaves the configuration untouched. -/
theorem emailNew_parse_failure_witness :
    (EmailNew ⟨false, [], [], []⟩ (str "invalid email format")).1 = none
      ∧ (EmailNew ⟨false, [], [], []⟩ (str "invalid email format")).2 = ⟨false, [], [], []⟩ :=
  emailNew_parse_failure ⟨false, [], [], []⟩ (str "invalid email format") (by decide)

/-- C7: a well-formed message with no To, Cc or Bcc header succeeds
and appends zero recipients. -/
theorem emailNew_no_recipient_headers (cfg : Config) (body : List Char)
    (hdrs : List (List Char × List Char)) (h : readMessage body = some hdrs)
    (hto : headerGet hdrs (str "to") = []) (hcc : headerGet hdrs (str "cc") = [])
    (hbcc : headerGet hdrs (str "bcc") = []) :
    (EmailNew cfg body).1.isSome = true
      ∧ (EmailNew cfg body).2.Recipients = cfg.Recipients := by
  simp only [EmailNew, h]
  refine ⟨rfl, ?_⟩
  show parseRecipients hdrs cfg.Recipients = cfg.Recipients
  rw [parseRecipients_eq, hto, hcc, hbcc]
  simp [show headerAddresses [] = [] from rfl]

/-- Witness for C7 at concrete input: a message with only From and
Subject headers parses with an unchanged (empty) recipient list. -/
theorem emailNew_no_recipient_headers_witness :
    (EmailNew ⟨false, [], [], []⟩ (str "From: a@b.c\nSubject: T\n\nBody")).1.isSome = true
      ∧ (EmailNew ⟨false, [], [], []⟩ (str "From: a@b.c\nSubject: T\n\nBody")).2.Recipients
        = ([] : List (List Char)) :=
  emailNew_no_recipient_headers ⟨false, [], [], []⟩ (str "From: a@b.c\nSubject: T\n\nBody")
    [(str "from", str "a@b.c"), (str "subject", str "T")]
    (by decide) (by decide) (by decide) (by decide)

/-- C9: recipient extraction is a pure function of the message bytes:
`New` leaves the sender, server list and verbosity of the configuration
unchanged, only appends to the recipient list (the prior entries remain
an unchanged prefix), and the returned email carries the unchanged body
and the updated configuration. -/
theorem emailNew_frame (cfg : Config) (body : List Char) :
    (EmailNew cfg body).2.FromAddr = cfg.FromAddr
    ∧ (EmailNew cfg body).2.SmtpAddrs = cfg.SmtpAddrs
    ∧ (EmailNew cfg body).2.BeVerbose = cfg.BeVerbose
    ∧ (∃ extracted, (EmailNew cfg body).2.Recipients = cfg.Recipients ++ extracted)
    ∧ (∀ e : Email, (EmailNew cfg body).1 = some e →
        e.Body = body ∧ e.Config = (EmailNew cfg body).2) := by
  cases h : readMessage body with
  | none =>
    simp only [EmailNew, h]
    exact ⟨trivial, trivial, trivial, ⟨[], (List.append_nil _).symm⟩,
      fun e he => Option.noConfusion he⟩
  | some hdrs =>
    simp only [EmailNew, h]
    refine ⟨trivial, trivial, trivial, ⟨_, parseRecipients_eq hdrs cfg.Recipients⟩, ?_⟩
    intro e he
    rw [← Option.some_inj.mp he]
    exact ⟨rfl, rfl⟩

/-- Witness for C9 at concrete input: a message appending one address
to a configuration already holding one recipient. -/
theorem emailNew_frame_witness :
    (⟨str "To: a@b\n\nx",
        ⟨false, str "f@x", [], [str "old@x.tld", str "a@b"]⟩⟩ : Email).Body
      = str "To: a@b\n\nx"
    ∧ (⟨str "To: a@b\n\nx",
        ⟨false, str "f@x", [], [str "old@x.tld", str "a@b"]⟩⟩ : Email).Config
      = (EmailNew ⟨false, str "f@x", [], [str "old@x.tld"]⟩ (str "To: a@b\n\nx")).2 :=
  (emailNew_frame ⟨false, str "f@x", [], [str "old@x.tld"]⟩ (str "To: a@b\n\nx")).2.2.2.2
    ⟨str "To: a@b\n\nx", ⟨false, str "f@x", [], [str "old@x.tld", str "a@b"]⟩⟩ (by decide)

/-- C10 counterexample: on a well-formed message with no To, Cc or Bcc
header and an empty initial recipient list, the part_000
`parseRecipients` appends three empty-string recipients while the
email.go version appends none, so the two are not equivalent. -/
theorem parseRecipients_old_new_counterexample :
    readMessage (str "From: a@b.c\n\nhello") = some [(str "from", str "a@b.c")]
    ∧ parseRecipientsOld [(str "from", str "a@b.c")] [] = [[], [], []]
    ∧ parseRecipients [(str "from", str "a@b.c")] [] = []
    ∧ ([[], [], []] : List (List Char)) ≠ [] := by decide

/-- C10 amended: the two `parseRecipients` versions agree on every
message in which each of the To, Cc, Bcc header values has only
comma-parts that are non-empty after trimming (in particular the
header is present and non-empty); they differ exactly in that the
part_000 version also appends one empty recipient per empty part or
absent header. -/
theorem parseRecipients_old_new_agree (hdrs : List (List Char × List Char))
    (r : List (List Char))
    (hparts : ∀ h ∈ [str "to", str "cc", str "bcc"],
      ∀ part ∈ (headerGet hdrs h).splitOn ',', trimSpaces part ≠ []) :
    parseRecipientsOld hdrs r = parseRecipients hdrs r := by
  rw [parseRecipients_eq, parseRecipientsOld_eq]
  have key : ∀ h ∈ [str "to", str "cc", str "bcc"],
      headerAddressesOld (headerGet hdrs h) = headerAddresses (headerGet hdrs h) := by
    intro h hh
    unfold headerAddresses headerAddressesOld
    congr 1
    symm
    rw [List.filter_eq_self]
    intro t ht
    obtain ⟨part, hpart, htp⟩ := List.mem_map.mp ht
    simpa [← htp] using hparts h hh part hpart
  rw [key (str "to") (by simp), key (str "cc") (by simp), key (str "bcc") (by simp)]

/-- Witness for the amended C10 at concrete input: all three headers
present with clean comma parts, on which the two versions agree. -/
theorem parseRecipients_old_new_agree_witness :
    parseRecipientsOld
        [(str "to", str "a@b, C <c@d>"), (str "cc", str "e@f"), (str "bcc", str "g@h")] []
      = parseRecipients
        [(str "to", str "a@b, C <c@d>"), (str "cc", str "e@f"), (str "bcc", str "g@h")] [] :=
  parseRecipients_old_new_agree
    [(str "to", str "a@b, C <c@d>"), (str "cc", str "e@f"), (str "bcc", str "g@h")] []
    (by decide)

end Mailrelay
